import Mathlib

/-!
Shallow embedding of the paw runtime schema-validation engine
(`src/paw.ts`, current revision: the part defining kind strings
"string" / "number" / "optional" / "nullable" / "transform", together with
`src/issue.ts` and `src/result.ts`).

JavaScript runtime values are modelled by `JSValue`; JS numbers are modelled
by rationals (no claim under scrutiny depends on floating-point rounding,
NaN or infinities).  Template-literal messages are modelled by string
concatenation.  Each parser class's private state is carried by the
corresponding constructor of the `Schema` inductive, and its `safeParse`
method body is translated clause for clause in `Paw.safeParse` and its
helper functions.
-/

namespace Paw

/-- Runtime JS values, with bigint included.  JS objects are modelled as
association lists in property insertion order; arrays as lists. -/
inductive JSValue where
  | null
  | undefined
  | boolVal (b : Bool)
  | numVal (q : ℚ)
  | strVal (s : String)
  | bigintVal (n : ℤ)
  | arrVal (elems : List JSValue)
  | objVal (fields : List (String × JSValue))

/-- Entry of a `PawIssuePath` (`PropertyKey`): an object field name or an
array index. -/
inductive PathKey where
  | fieldKey (s : String)
  | idxKey (n : Nat)
deriving DecidableEq, Repr

/-- The issue taxonomy of `src/issue.ts`: one constructor per issue class,
each carrying its `message` and optional `path`; the two aggregate kinds
carry their child issue lists and the three pipeline kinds carry `src`. -/
inductive PawIssue where
  | required (message : String) (path : Option (List PathKey))
  | stringI (message : String) (path : Option (List PathKey))
  | numberI (message : String) (path : Option (List PathKey))
  | bigintI (message : String) (path : Option (List PathKey))
  | booleanI (message : String) (path : Option (List PathKey))
  | arrayType (message : String) (path : Option (List PathKey))
  | arraySchema (message : String) (issues : List (Nat × PawIssue))
      (path : Option (List PathKey))
  | objectType (message : String) (path : Option (List PathKey))
  | objectSchema (message : String) (issues : List (String × PawIssue))
      (path : Option (List PathKey))
  | literalI (message : String) (path : Option (List PathKey))
  | unionI (message : String) (path : Option (List PathKey))
  | checkI (message : String) (src : String) (path : Option (List PathKey))
  | refineI (message : String) (src : String) (path : Option (List PathKey))
  | transformI (message : String) (src : String) (path : Option (List PathKey))

/-- Result type of `src/result.ts`: `PawOk` / `PawError`. -/
inductive PawResult (T : Type) (E : Type) where
  | ok (value : T)
  | error (err : E)

/-- Discriminant of `PawResult`, the `ok` readonly field. -/
def PawResult.isOk {T E : Type} : PawResult T E → Bool
  | .ok _ => true
  | .error _ => false

/-- Context handed to a refine function (`PawRefineContext`). -/
structure PawRefineContext where
  input : JSValue
  src : String

/-- Model of `PawRefineFn`.  The error side is widened from
`PawRefineIssue` to `PawIssue`, matching how the engine consumes it. -/
def RefineFn : Type := PawRefineContext → PawResult JSValue PawIssue

/-- Context handed to a check function (`PawCheckContext`). -/
structure PawCheckContext where
  input : JSValue
  output : JSValue
  src : String

/-- Model of `PawCheckFn`. -/
def CheckFn : Type := PawCheckContext → PawResult Unit PawIssue

/-- Context handed to a transform function (`PawTransformContext`). -/
structure PawTransformContext where
  output : JSValue
  src : String

/-- Model of `PawTransformFn`. -/
def TransformFn : Type := PawTransformContext → PawResult JSValue PawIssue

/-- Configuration pair `{value: number, message?: string}` used by the
number parser's min/max configs. -/
structure NumCfg where
  value : ℚ
  message : Option String

/-- Configuration pair `{length: number, message?: string}` used by the
string parser's min/max configs. -/
structure LenCfg where
  length : Nat
  message : Option String

/-- Configuration pair `{value: number, message?: string}` used by the
array parser's min/max size configs. -/
structure SizeCfg where
  value : Nat
  message : Option String

/-- Configuration pair `{value: boolean, message?: string}` of the number
parser's `intcfg`. -/
structure IntCfg where
  value : Bool
  message : Option String

/-- Configuration pair `{value: bigint, message?: string}` for the
spec-modelled bigint parser's min/max configs. -/
structure BigCfg where
  value : ℤ
  message : Option String

/-- One schema constructor per parser class of `src/paw.ts`, carrying that
class's private state in the source's field order.  `bigintS` is the
spec-modelled BigInt variant (see `bigintSafeParse`). -/
inductive Schema where
  | stringS (message : Option String) (reqmessage : Option String)
      (mincfg : Option LenCfg) (maxcfg : Option LenCfg)
      (refines : List RefineFn) (checks : List CheckFn)
  | numberS (message : Option String) (reqmessage : Option String)
      (intcfg : IntCfg) (mincfg : Option NumCfg) (maxcfg : Option NumCfg)
      (refines : List RefineFn) (checks : List CheckFn)
  | bigintS (message : Option String) (reqmessage : Option String)
      (mincfg : Option BigCfg) (maxcfg : Option BigCfg)
      (refines : List RefineFn) (checks : List CheckFn)
  | booleanS (message : Option String) (reqmessage : Option String)
      (refines : List RefineFn) (checks : List CheckFn)
  | unknownS (refines : List RefineFn) (checks : List CheckFn)
  | anyS (refines : List RefineFn) (checks : List CheckFn)
  | arrayS (unit : Schema) (message : Option String)
      (isImmediate : Bool) (reqmessage : Option String)
      (maxcfg : Option SizeCfg) (mincfg : Option SizeCfg)
      (refinements : List RefineFn) (checks : List CheckFn)
  | objectS (fields : List (String × Schema)) (message : Option String)
      (isImmediate : Bool) (reqmessage : Option String)
      (refinements : List RefineFn) (checks : List CheckFn)
      (isStrict : Bool) (isPathed : Bool)
  | literalS (values : List JSValue) (message : Option String)
      (reqmessage : Option String)
      (refines : List RefineFn) (checks : List CheckFn)
  | unionS (schemas : List Schema) (message : Option String)
      (reqmessage : Option String)
      (refines : List RefineFn) (checks : List CheckFn)
  | optionalS (parser : Schema) (refines : List RefineFn)
  | nullableS (parser : Schema) (refines : List RefineFn)
  | transformS (schema : Schema) (fn : TransformFn) (src : String)

/-- The `kind` readonly discriminant of each parser class. -/
def Schema.kindOf : Schema → String
  | .stringS .. => "string"
  | .numberS .. => "number"
  | .bigintS .. => "bigint"
  | .booleanS .. => "boolean"
  | .unknownS .. => "unknown"
  | .anyS .. => "any"
  | .arrayS .. => "array"
  | .objectS .. => "object"
  | .literalS .. => "literal"
  | .unionS .. => "union"
  | .optionalS .. => "optional"
  | .nullableS .. => "nullable"
  | .transformS .. => "transform"

/-- JS `typeof` on the modelled values (`typeof null` is "object" and
arrays are "object"). -/
def jsTypeof : JSValue → String
  | .null => "object"
  | .undefined => "undefined"
  | .boolVal _ => "boolean"
  | .numVal _ => "number"
  | .strVal _ => "string"
  | .bigintVal _ => "bigint"
  | .arrVal _ => "object"
  | .objVal _ => "object"

/-- JS `Array.isArray`. -/
def isArray : JSValue → Bool
  | .arrVal _ => true
  | _ => false

/-- Association-list lookup of an object property in insertion order. -/
def lookupField : List (String × JSValue) → String → Option JSValue
  | [], _ => none
  | (k, v) :: rest, key => if k = key then some v else lookupField rest key

/-- JS property read `val[k]` as the object parsers use it: association
lookup on objects (absent keys give `undefined`); on arrays, `length` and
canonical numeric indices; `undefined` elsewhere. -/
def getProp : JSValue → String → JSValue
  | .objVal fields, key => (lookupField fields key).getD .undefined
  | .arrVal elems, key =>
      if key = "length" then .numVal elems.length
      else
        match key.toNat? with
        | some i => if toString i = key then (elems.getD i .undefined) else .undefined
        | none => .undefined
  | _, _ => .undefined

/-- Rendering of a value inside a template literal.  The engine only
interpolates values on the null/undefined branches, where JS prints
"null" / "undefined"; the remaining cases follow JS string coercion of
scalars and are never reached by the modelled messages. -/
def displayValue : JSValue → String
  | .null => "null"
  | .undefined => "undefined"
  | .boolVal b => if b then "true" else "false"
  | .numVal q => toString q
  | .strVal s => s
  | .bigintVal n => toString n
  | .arrVal _ => ""
  | .objVal _ => "[object Object]"

/-- JS strict equality `===` restricted to the scalar shapes a literal
schema can hold (string / number / boolean literals compared with an
arbitrary runtime value). -/
def strictEqScalar : JSValue → JSValue → Bool
  | .strVal a, .strVal b => a = b
  | .numVal a, .numVal b => a = b
  | .boolVal a, .boolVal b => a = b
  | _, _ => false

/-- JS test `val === null || val === undefined`. -/
def isNullish : JSValue → Bool
  | .null => true
  | .undefined => true
  | _ => false

/-- JS test `val === undefined`. -/
def isUndefined : JSValue → Bool
  | .undefined => true
  | _ => false

/-- JS test `val === null`. -/
def isNull : JSValue → Bool
  | .null => true
  | _ => false

/-- The refine loop shared by every parser: each registered refine function
runs in order on the current value; the first error short-circuits. -/
def runRefines : List RefineFn → String → JSValue → PawResult JSValue PawIssue
  | [], _, input => .ok input
  | fn :: rest, src, input =>
    match fn ⟨input, src⟩ with
    | .error e => .error e
    | .ok v => runRefines rest src v

/-- The check loop shared by every parser: each registered check function
runs in order on `(input, output)`; the first error short-circuits. -/
def runChecks : List CheckFn → String → JSValue → JSValue →
    PawResult Unit PawIssue
  | [], _, _, _ => .ok ()
  | fn :: rest, src, input, output =>
    match fn ⟨input, output, src⟩ with
    | .error e => .error e
    | .ok _ => runChecks rest src input output

/-- Check stage and success of `PawStringParser.safeParse`. -/
def stringAfterMax (checks : List CheckFn) (s : String) :
    PawResult JSValue PawIssue :=
  match runChecks checks "string" (.strVal s) (.strVal s) with
  | .error e => .error e
  | .ok _ => .ok (.strVal s)

/-- Max-length stage of `PawStringParser.safeParse`. -/
def stringAfterMin (maxcfg : Option LenCfg)
    (checks : List CheckFn) (s : String) : PawResult JSValue PawIssue :=
  match maxcfg with
  | some xc =>
    if s.length > xc.length then
      .error (.stringI (xc.message.getD
        ("String length cannot be more than " ++ toString xc.length)) none)
    else stringAfterMax checks s
  | none => stringAfterMax checks s

/-- Body of `PawStringParser.safeParse`. -/
def stringSafeParse (message reqmessage : Option String)
    (mincfg maxcfg : Option LenCfg)
    (refines : List RefineFn) (checks : List CheckFn) (v : JSValue) :
    PawResult JSValue PawIssue :=
  match runRefines refines "string" v with
  | .error e => .error e
  | .ok input =>
    if isNullish input then
      .error (.required (reqmessage.getD (message.getD
        ("Expected string but received " ++ displayValue input))) none)
    else match input with
      | .strVal s =>
        match mincfg with
        | some mc =>
          if s.length < mc.length then
            .error (.stringI (mc.message.getD
              ("String length cannot be less than " ++ toString mc.length)) none)
          else stringAfterMin maxcfg checks s
        | none => stringAfterMin maxcfg checks s
      | _ =>
        .error (.stringI (message.getD
          ("Expected string but received " ++ jsTypeof input)) none)

/-- Check stage and success of `PawNumberParser.safeParse`. -/
def numberAfterMax (checks : List CheckFn) (q : ℚ) :
    PawResult JSValue PawIssue :=
  match runChecks checks "number" (.numVal q) (.numVal q) with
  | .error e => .error e
  | .ok _ => .ok (.numVal q)

/-- Max stage of `PawNumberParser.safeParse`. -/
def numberAfterMin (maxcfg : Option NumCfg) (checks : List CheckFn)
    (q : ℚ) : PawResult JSValue PawIssue :=
  match maxcfg with
  | some xc =>
    if q > xc.value then
      .error (.numberI (xc.message.getD
        ("Expected number to be bigger than or equal to " ++
          toString xc.value)) none)
    else numberAfterMax checks q
  | none => numberAfterMax checks q

/-- Body of `PawNumberParser.safeParse`. -/
def numberSafeParse (message reqmessage : Option String) (intcfg : IntCfg)
    (mincfg maxcfg : Option NumCfg)
    (refines : List RefineFn) (checks : List CheckFn) (v : JSValue) :
    PawResult JSValue PawIssue :=
  match runRefines refines "number" v with
  | .error e => .error e
  | .ok input =>
    if isNullish input then
      .error (.required (reqmessage.getD (message.getD
        ("Expected a number but received " ++ displayValue input))) none)
    else match input with
      | .numVal q =>
        if intcfg.value ∧ ¬ q.den = 1 then
          .error (.numberI (intcfg.message.getD
            "Expected number to be a valid integer") none)
        else
          match mincfg with
          | some mc =>
            if q < mc.value then
              .error (.numberI (mc.message.getD
                ("Expected number to be less than or equal to " ++
                  toString mc.value)) none)
            else numberAfterMin maxcfg checks q
          | none => numberAfterMin maxcfg checks q
      | _ =>
        .error (.numberI (message.getD
          ("Expected a number but received " ++ jsTypeof input)) none)

/-- Modelled from the spec: check stage and success of the bigint
variant. -/
def bigintAfterMax (checks : List CheckFn) (n : ℤ) :
    PawResult JSValue PawIssue :=
  match runChecks checks "bigint" (.bigintVal n) (.bigintVal n) with
  | .error e => .error e
  | .ok _ => .ok (.bigintVal n)

/-- Modelled from the spec: max stage of the bigint variant. -/
def bigintAfterMin (maxcfg : Option BigCfg) (checks : List CheckFn)
    (n : ℤ) : PawResult JSValue PawIssue :=
  match maxcfg with
  | some xc =>
    if n > xc.value then
      .error (.bigintI (xc.message.getD
        ("Expected bigint to be bigger than or equal to " ++
          toString xc.value)) none)
    else bigintAfterMax checks n
  | none => bigintAfterMax checks n

/-- Modelled from the spec: the repository's current sources declare the
issue kind `PawBigIntIssue` (src/issue.ts, kind "bigint") but contain no
BigInt parser class, so this safeParse body is modelled from the spec's
words — spec section 4.2: refine, then Required for null/undefined (custom
required message first), then the variant's type issue when the runtime
type is not bigint, then the min constraint and then the max constraint,
each only if configured, with its own optional custom message, the first
violated constraint short-circuiting; on success run checks and return the
value unmodified. -/
def bigintSafeParse (message reqmessage : Option String)
    (mincfg maxcfg : Option BigCfg)
    (refines : List RefineFn) (checks : List CheckFn) (v : JSValue) :
    PawResult JSValue PawIssue :=
  match runRefines refines "bigint" v with
  | .error e => .error e
  | .ok input =>
    if isNullish input then
      .error (.required (reqmessage.getD (message.getD
        ("Expected bigint but received " ++ displayValue input))) none)
    else match input with
      | .bigintVal n =>
        match mincfg with
        | some mc =>
          if n < mc.value then
            .error (.bigintI (mc.message.getD
              ("Expected bigint to be less than or equal to " ++
                toString mc.value)) none)
          else bigintAfterMin maxcfg checks n
        | none => bigintAfterMin maxcfg checks n
      | _ =>
        .error (.bigintI (message.getD
          ("Expected bigint but received " ++ jsTypeof input)) none)

/-- Body of `PawBooleanParser.safeParse`. -/
def booleanSafeParse (message reqmessage : Option String)
    (refines : List RefineFn) (checks : List CheckFn) (v : JSValue) :
    PawResult JSValue PawIssue :=
  match runRefines refines "boolean" v with
  | .error e => .error e
  | .ok input =>
    if isNullish input then
      .error (.required (reqmessage.getD (message.getD
        ("Expected boolean but received " ++ displayValue input))) none)
    else match input with
      | .boolVal b =>
        match runChecks checks "boolean" (.boolVal b) (.boolVal b) with
        | .error e => .error e
        | .ok _ => .ok (.boolVal b)
      | _ => .error (.booleanI (message.getD "Value is not a boolean") none)

/-- Body of `PawUnknownParser.safeParse` (also `PawAnyParser.safeParse`,
which is textually identical up to `src`): refines, then checks, then Ok. -/
def unknownSafeParse (src : String)
    (refines : List RefineFn) (checks : List CheckFn) (v : JSValue) :
    PawResult JSValue PawIssue :=
  match runRefines refines src v with
  | .error e => .error e
  | .ok input =>
    match runChecks checks src input input with
    | .error e => .error e
    | .ok _ => .ok input

/-- Body of `PawLiteralParser.safeParse`.  Membership is JS `indexOf` with
strict equality over the scalar literal values. -/
def literalSafeParse (values : List JSValue)
    (message reqmessage : Option String)
    (refines : List RefineFn) (checks : List CheckFn) (v : JSValue) :
    PawResult JSValue PawIssue :=
  match runRefines refines "literal" v with
  | .error e => .error e
  | .ok input =>
    if isNullish input then
      .error (.required (reqmessage.getD
        ("Expected literal but received " ++ displayValue input)) none)
    else if values.any (fun lit => strictEqScalar lit input) then
      match runChecks checks "literal" input input with
      | .error e => .error e
      | .ok _ => .ok input
    else
      .error (.literalI (message.getD
        ("Expected one of the following values: " ++
          String.intercalate ", " (values.map displayValue))) none)

/-- Min-size stage of `PawArrayParser.parseArray`. -/
def parseArrayMin (mincfg : Option SizeCfg)
    (elems : List JSValue) : PawResult (List JSValue) PawIssue :=
  match mincfg with
  | some mc =>
    if elems.length < mc.value then
      .error (.arrayType (mc.message.getD
        ("Array cannot have less than " ++ toString mc.value ++
          " items")) none)
    else .ok elems
  | none => .ok elems

/-- Body of `PawArrayParser.parseArray`: the structural array check. -/
def parseArray (message reqmessage : Option String)
    (maxcfg mincfg : Option SizeCfg) (input : JSValue) :
    PawResult (List JSValue) PawIssue :=
  if isNullish input then
    .error (.required (reqmessage.getD (message.getD
      ("Expected array but received " ++ displayValue input))) none)
  else match input with
    | .arrVal elems =>
      match maxcfg with
      | some xc =>
        if elems.length > xc.value then
          .error (.arrayType (xc.message.getD
            ("Array cannot have more than " ++ toString xc.value ++
              " items")) none)
        else parseArrayMin mincfg elems
      | none => parseArrayMin mincfg elems
    | _ =>
      .error (.arrayType (message.getD
        ("Expected array but received " ++ jsTypeof input)) none)

/-- Body of `PawObjectParser.parseObject`: the structural object check. -/
def parseObject (message reqmessage : Option String) (val : JSValue) :
    PawResult JSValue PawIssue :=
  if isNullish val then
    .error (.required (reqmessage.getD (message.getD
      ("Expected object but received " ++ displayValue val))) none)
  else if jsTypeof val = "object" then .ok val
  else
    .error (.objectType (message.getD
      ("Expected object but received " ++ jsTypeof val)) none)

/-- Body of `PawObjectParser.getFieldIssueMessage`. -/
def getFieldIssueMessage (message : Option String) (key : String) : String :=
  message.getD ("Field '" ++ key ++ "' failed object schema validation")

mutual

/-- Body of `PawObjectParser.makeIssueWithPath`: sets the issue's own
`path` to the incoming prefix and recurses into aggregate children with
the prefix extended by the child's field name or index.  The source
mutates the issue objects in place; the model rebuilds the tree. -/
def makeIssueWithPath : PawIssue → List PathKey → PawIssue
  | .objectSchema m issues _, path =>
      .objectSchema m (mapObjIssues issues path) (some path)
  | .arraySchema m issues _, path =>
      .arraySchema m (mapArrIssues issues path) (some path)
  | .required m _, path => .required m (some path)
  | .stringI m _, path => .stringI m (some path)
  | .numberI m _, path => .numberI m (some path)
  | .bigintI m _, path => .bigintI m (some path)
  | .booleanI m _, path => .booleanI m (some path)
  | .arrayType m _, path => .arrayType m (some path)
  | .objectType m _, path => .objectType m (some path)
  | .literalI m _, path => .literalI m (some path)
  | .unionI m _, path => .unionI m (some path)
  | .checkI m s _, path => .checkI m s (some path)
  | .refineI m s _, path => .refineI m s (some path)
  | .transformI m s _, path => .transformI m s (some path)

/-- Child loop of `makeIssueWithPath` over an ObjectSchema issue's
`{field, issue}` entries. -/
def mapObjIssues : List (String × PawIssue) → List PathKey →
    List (String × PawIssue)
  | [], _ => []
  | (f, iss) :: rest, path =>
      (f, makeIssueWithPath iss (path ++ [.fieldKey f])) ::
        mapObjIssues rest path

/-- Child loop of `makeIssueWithPath` over an ArraySchema issue's
`{idx, issue}` entries. -/
def mapArrIssues : List (Nat × PawIssue) → List PathKey →
    List (Nat × PawIssue)
  | [], _ => []
  | (i, iss) :: rest, path =>
      (i, makeIssueWithPath iss (path ++ [.idxKey i])) ::
        mapArrIssues rest path

end

mutual

/-- Dispatch and body of every parser class's `safeParse` method. -/
def safeParse : Schema → JSValue → PawResult JSValue PawIssue
  | .stringS m rm mi ma refs cks, v => stringSafeParse m rm mi ma refs cks v
  | .numberS m rm ic mi ma refs cks, v =>
      numberSafeParse m rm ic mi ma refs cks v
  | .bigintS m rm mi ma refs cks, v => bigintSafeParse m rm mi ma refs cks v
  | .booleanS m rm refs cks, v => booleanSafeParse m rm refs cks v
  | .unknownS refs cks, v => unknownSafeParse "unknown" refs cks v
  | .anyS refs cks, v => unknownSafeParse "any" refs cks v
  | .literalS vals m rm refs cks, v => literalSafeParse vals m rm refs cks v
  | .arrayS unit m imm rm ma mi refs cks, v =>
      match runRefines refs "array" v with
      | .error e => .error e
      | .ok input =>
        match parseArray m rm ma mi input with
        | .error e => .error e
        | .ok elems =>
          if imm then
            match parseElemsImmediate unit elems 0 with
            | some (i, e) =>
                .error (.arraySchema (m.getD
                  ("Item at " ++ toString i ++ " failed schema validation"))
                  [(i, e)] none)
            | none =>
                match runChecks cks "array" input (.arrVal elems) with
                | .error e => .error e
                | .ok _ => .ok (.arrVal elems)
          else
            match parseElemsRetained unit elems 0 with
            | [] =>
                match runChecks cks "array" input (.arrVal elems) with
                | .error e => .error e
                | .ok _ => .ok (.arrVal elems)
            | iss :: more =>
                .error (.arraySchema (m.getD "Array failed schema validation")
                  (iss :: more) none)
  | .objectS fields m imm rm refs cks strict pathed, v =>
      match objectSafeParseRaw fields m imm rm refs cks strict v with
      | .error e =>
          if pathed then .error (makeIssueWithPath e []) else .error e
      | .ok out => .ok out
  | .unionS schemas m rm refs cks, v =>
      match runRefines refs "union" v with
      | .error e => .error e
      | .ok input =>
        match unionFirstOk schemas input with
        | some value =>
            match runChecks cks "union" input value with
            | .error e => .error e
            | .ok _ => .ok value
        | none =>
            if isNullish input then
              .error (.required (rm.getD
                ("Expected union but received " ++ displayValue input)) none)
            else
              .error (.unionI (m.getD
                "Value does not match any of the union variants") none)
  | .optionalS parser refs, v =>
      match runRefines refs "optional" v with
      | .error e => .error e
      | .ok input =>
        if isUndefined input then .ok input else safeParse parser input
  | .nullableS parser refs, v =>
      match runRefines refs "nullable" v with
      | .error e => .error e
      | .ok input =>
        if isNull input then .ok input else safeParse parser input
  | .transformS schema fn src, v =>
      match safeParse schema v with
      | .error e => .error e
      | .ok value => fn ⟨value, src⟩

/-- Bodies of `PawObjectParser.safeParseImmediate` /
`safeParseRetained` (the object's `safeParse` before path tagging). -/
def objectSafeParseRaw (fields : List (String × Schema))
    (m : Option String) (imm : Bool) (rm : Option String)
    (refs : List RefineFn) (cks : List CheckFn) (strict : Bool)
    (v : JSValue) : PawResult JSValue PawIssue :=
  match runRefines refs "object" v with
  | .error e => .error e
  | .ok input =>
    match parseObject m rm input with
    | .error e => .error e
    | .ok objv =>
      if imm then
        if strict then
          match parseFieldsImmediateStrict fields objv with
          | .error (k, e) =>
              .error (.objectSchema (getFieldIssueMessage m k) [(k, e)]
                (some [.fieldKey k]))
          | .ok out =>
              match runChecks cks "object" input (.objVal out) with
              | .error e => .error e
              | .ok _ => .ok (.objVal out)
        else
          match parseFieldsImmediate fields objv with
          | some (k, e) =>
              .error (.objectSchema (getFieldIssueMessage m k) [(k, e)] none)
          | none =>
              match runChecks cks "object" input objv with
              | .error e => .error e
              | .ok _ => .ok objv
      else
        if strict then
          match parseFieldsRetainedStrict fields objv with
          | ([], out) =>
              match runChecks cks "object" input (.objVal out) with
              | .error e => .error e
              | .ok _ => .ok (.objVal out)
          | (iss :: more, _) =>
              .error (.objectSchema (m.getD "Object failed schema validation")
                (iss :: more) none)
        else
          match parseFieldsRetained fields objv with
          | [] =>
              match runChecks cks "object" input objv with
              | .error e => .error e
              | .ok _ => .ok objv
          | iss :: more =>
              .error (.objectSchema (m.getD "Object failed schema validation")
                (iss :: more) none)

/-- Element loop of `PawArrayParser.safeParseImmediate`: the first failing
element's `{idx, issue}` entry, if any. -/
def parseElemsImmediate (unit : Schema) :
    List JSValue → Nat → Option (Nat × PawIssue)
  | [], _ => none
  | e :: rest, i =>
    match safeParse unit e with
    | .error err => some (i, err)
    | .ok _ => parseElemsImmediate unit rest (i + 1)

/-- Element loop of `PawArrayParser.safeParseRetained`: every failing
element's `{idx, issue}` entry, in index order. -/
def parseElemsRetained (unit : Schema) :
    List JSValue → Nat → List (Nat × PawIssue)
  | [], _ => []
  | e :: rest, i =>
    match safeParse unit e with
    | .error err => (i, err) :: parseElemsRetained unit rest (i + 1)
    | .ok _ => parseElemsRetained unit rest (i + 1)

/-- Field loop of `PawObjectParser.safeParseImmediate` (non-strict): the
first failing field's `{field, issue}` entry, if any. -/
def parseFieldsImmediate :
    List (String × Schema) → JSValue → Option (String × PawIssue)
  | [], _ => none
  | (k, s) :: rest, v =>
    match safeParse s (getProp v k) with
    | .error e => some (k, e)
    | .ok _ => parseFieldsImmediate rest v

/-- Field loop of `PawObjectParser.safeParseImmediate` (strict): the
projected output, or the first failing field's `{field, issue}` entry. -/
def parseFieldsImmediateStrict :
    List (String × Schema) → JSValue →
      PawResult (List (String × JSValue)) (String × PawIssue)
  | [], _ => .ok []
  | (k, s) :: rest, v =>
    match safeParse s (getProp v k) with
    | .error e => .error (k, e)
    | .ok value =>
      match parseFieldsImmediateStrict rest v with
      | .error x => .error x
      | .ok out => .ok ((k, value) :: out)

/-- Field loop of `PawObjectParser.safeParseRetained` (non-strict): every
failing field's `{field, issue}` entry, in declared order. -/
def parseFieldsRetained :
    List (String × Schema) → JSValue → List (String × PawIssue)
  | [], _ => []
  | (k, s) :: rest, v =>
    match safeParse s (getProp v k) with
    | .error e => (k, e) :: parseFieldsRetained rest v
    | .ok _ => parseFieldsRetained rest v

/-- Field loop of `PawObjectParser.safeParseRetained` (strict): collected
`{field, issue}` entries and the projected output of the fields that
validated, both in declared order. -/
def parseFieldsRetainedStrict :
    List (String × Schema) → JSValue →
      List (String × PawIssue) × List (String × JSValue)
  | [], _ => ([], [])
  | (k, s) :: rest, v =>
    let tail := parseFieldsRetainedStrict rest v
    match safeParse s (getProp v k) with
    | .error e => ((k, e) :: tail.1, tail.2)
    | .ok value => (tail.1, (k, value) :: tail.2)

/-- Alternative loop of `PawUnionParser.safeParse`: the first
alternative's Ok value, if any. -/
def unionFirstOk : List Schema → JSValue → Option JSValue
  | [], _ => none
  | s :: rest, v =>
    match safeParse s v with
    | .ok value => some value
    | .error _ => unionFirstOk rest v

end

/-- The `parse` method of every parser class: a thrown `PawParseError e`
(whose `issue` property is `e`) is modelled as `.error e`.  Every class
implements `parse` as `safeParse` plus a throw on error — except
`PawTransformParser.parse`, whose body calls `this.schema.safeParse` (the
wrapped schema) and returns its value without ever applying `this.fn`. -/
def parse : Schema → JSValue → PawResult JSValue PawIssue
  | .transformS schema _ _, v =>
      match safeParse schema v with
      | .error e => .error e
      | .ok value => .ok value
  | s, v =>
      match safeParse s v with
      | .error e => .error e
      | .ok value => .ok value

/-- Factory `paw.string(message?)`. -/
def string (message : Option String) : Schema :=
  .stringS message none none none [] []

/-- Factory `paw.number(message?)`. -/
def number (message : Option String) : Schema :=
  .numberS message none ⟨false, none⟩ none none [] []

/-- Factory `paw.boolean(message?)`. -/
def boolean (message : Option String) : Schema :=
  .booleanS message none [] []

/-- Factory `paw.unknown()`. -/
def unknown : Schema := .unknownS [] []

/-- Factory `paw.any()`. -/
def anyV : Schema := .anyS [] []

/-- Factory `paw.array(unit, message?)`. -/
def array (unit : Schema) (message : Option String) : Schema :=
  .arrayS unit message false none none none [] []

/-- Factory `paw.object(fields, message?)`. -/
def object (fields : List (String × Schema)) (message : Option String) :
    Schema :=
  .objectS fields message false none [] [] false false

/-- Factory `paw.literal(values, message?)`. -/
def literal (values : List JSValue) (message : Option String) : Schema :=
  .literalS values message none [] []

/-- Factory `paw.union(schemas, message?)`. -/
def union (schemas : List Schema) (message : Option String) : Schema :=
  .unionS schemas message none [] []

/-- The `optional()` builder method: `new PawOptionalParser(this)`, whose
constructor starts with an empty refine list. -/
def Schema.optional (s : Schema) : Schema := .optionalS s []

/-- The `nullable()` builder method: `new PawNullableParser(this)`. -/
def Schema.nullable (s : Schema) : Schema := .nullableS s []

/-- The `transform(fn)` builder method of a non-transform parser:
`new PawTransformParser(fn, this)`, whose constructor defaults `src` to
`this.kind`. -/
def Schema.toTransform (s : Schema) (fn : TransformFn) : Schema :=
  .transformS s fn s.kindOf

/-- Association lookup in a schema field map. -/
def lookupSchema : List (String × Schema) → String → Option Schema
  | [], _ => none
  | (k, s) :: rest, key => if k = key then some s else lookupSchema rest key

/-- Membership of a key in a schema field map. -/
def hasKey (l : List (String × Schema)) (key : String) : Bool :=
  (lookupSchema l key).isSome

/-- JS object spread `{...a, ...b}` on field maps: a's keys in a's
insertion order with b's value winning on collision, then b's remaining
keys in b's order. -/
def mergeFields (a b : List (String × Schema)) : List (String × Schema) :=
  a.map (fun kv => (kv.1, (lookupSchema b kv.1).getD kv.2)) ++
    b.filter (fun kv => ! hasKey a kv.1)

/-- Body of `PawObjectParser.extend`: a fresh object parser over the
spread-merged field map and the argument message, then the receiver's
`isImmediate`, `reqmessage`, `isStrict` and `isPathed` flags copied over
and the receiver's refine and check functions re-registered in order.
The source method only reads the receiver, so it is embedded as a pure
function; on a non-object schema it is a no-op (the method exists only on
`PawObjectParser`). -/
def Schema.extend (o : Schema) (fields2 : List (String × Schema))
    (message : Option String) : Schema :=
  match o with
  | .objectS fields _ imm rm refs cks strict pathed =>
      .objectS (mergeFields fields fields2) message imm rm refs cks
        strict pathed
  | s => s

mutual

/-- Decidable statement that every issue of a tree carries exactly the
path given by the concatenation of its ancestors' field names and array
indices below the prefix `pre`. -/
def pathsOk : PawIssue → List PathKey → Bool
  | .objectSchema _ issues p, pre =>
      decide (p = some pre) && pathsOkObj issues pre
  | .arraySchema _ issues p, pre =>
      decide (p = some pre) && pathsOkArr issues pre
  | .required _ p, pre => decide (p = some pre)
  | .stringI _ p, pre => decide (p = some pre)
  | .numberI _ p, pre => decide (p = some pre)
  | .bigintI _ p, pre => decide (p = some pre)
  | .booleanI _ p, pre => decide (p = some pre)
  | .arrayType _ p, pre => decide (p = some pre)
  | .objectType _ p, pre => decide (p = some pre)
  | .literalI _ p, pre => decide (p = some pre)
  | .unionI _ p, pre => decide (p = some pre)
  | .checkI _ _ p, pre => decide (p = some pre)
  | .refineI _ _ p, pre => decide (p = some pre)
  | .transformI _ _ p, pre => decide (p = some pre)

/-- Paths of an ObjectSchema issue's children, each one level deeper. -/
def pathsOkObj : List (String × PawIssue) → List PathKey → Bool
  | [], _ => true
  | (f, iss) :: rest, pre =>
      pathsOk iss (pre ++ [.fieldKey f]) && pathsOkObj rest pre

/-- Paths of an ArraySchema issue's children, each one level deeper. -/
def pathsOkArr : List (Nat × PawIssue) → List PathKey → Bool
  | [], _ => true
  | (i, iss) :: rest, pre =>
      pathsOk iss (pre ++ [.idxKey i]) && pathsOkArr rest pre

end

/-- The error payload of a result, `none` on success. -/
def PawResult.errorOf {T E : Type} : PawResult T E → Option E
  | .ok _ => none
  | .error e => some e

/-- The success payload of a result, `undefined` on error. -/
def okValue : PawResult JSValue PawIssue → JSValue
  | .ok v => v
  | .error _ => .undefined

/-- Transform schema `paw.string().transform((ctx) => ctx.ok(2))`. -/
def transformToTwo : Schema :=
  Schema.toTransform (string none) (fun _ => .ok (.numVal 2))

/-- Transform schema over `paw.string()` whose transform function always
returns an issue. -/
def transformAlwaysErr : Schema :=
  Schema.toTransform (string none)
    (fun ctx => .error (.transformI "transform failed" ctx.src none))

/-- C1: the claim fails on the code.  `PawTransformParser.parse` calls the
wrapped schema's `safeParse` and returns its payload without applying the
transform function, so on input "ab" the schema
`paw.string().transform((ctx) => ctx.ok(2))` has `parse` return "ab" while
`safeParse` returns Ok(2); and when the transform function itself fails,
`parse` still returns the untransformed value where `safeParse` returns
the transform issue, so `parse` does not throw an error carrying that
issue. -/
theorem transform_parse_ignores_fn :
    parse transformToTwo (.strVal "ab") = .ok (.strVal "ab") ∧
    safeParse transformToTwo (.strVal "ab") = .ok (.numVal 2) ∧
    JSValue.strVal "ab" ≠ JSValue.numVal 2 ∧
    parse transformAlwaysErr (.strVal "ab") = .ok (.strVal "ab") ∧
    safeParse transformAlwaysErr (.strVal "ab") =
      .error (.transformI "transform failed" "string" none) := by
  refine ⟨?_, ?_, by simp, ?_, ?_⟩ <;>
    simp [parse, transformToTwo, transformAlwaysErr, Schema.toTransform,
      Schema.kindOf, safeParse, string, stringSafeParse, runRefines,
      isNullish, stringAfterMin, stringAfterMax, runChecks]

/-- C3 as stated is false: the parenthetical asserts that
`S.optional().safeParse(null)` fails unless `S` is itself Nullable, but
for `S = paw.unknown()` — whose kind is "unknown", not "nullable" — the
wrapper delegates null to `S` and `S` accepts it, so the call succeeds
with Ok(null). -/
theorem optional_null_unknown_ok :
    safeParse (Schema.optional unknown) .null = .ok .null ∧
    Schema.kindOf unknown ≠ "nullable" := by
  constructor
  · simp [safeParse, Schema.optional, unknown, unknownSafeParse, runRefines,
      runChecks, isUndefined]
  · simp [unknown, Schema.kindOf]

/-- C3 (amended): for every inner schema S, the Optional wrapper built by
`S.optional()` returns Ok(undefined) on undefined without delegating,
delegates null to S's own safeParse (so the outcome on null is S's own
null handling: a failure when S rejects null, a success when S accepts
it), and forwards every non-undefined value to S. -/
theorem optional_wrapper_contract (S : Schema) :
    safeParse (Schema.optional S) .undefined = .ok .undefined ∧
    safeParse (Schema.optional S) .null = safeParse S .null ∧
    ∀ v : JSValue, isUndefined v = false →
      safeParse (Schema.optional S) v = safeParse S v := by
  refine ⟨?_, ?_, fun v hv => ?_⟩ <;>
    simp_all [safeParse, Schema.optional, runRefines, isUndefined]

/-- Witness for `optional_wrapper_contract` at S = paw.string() and the
non-undefined value "a". -/
theorem optional_wrapper_contract_witness :
    safeParse (Schema.optional (string none)) (.strVal "a") =
      safeParse (string none) (.strVal "a") :=
  (optional_wrapper_contract (string none)).2.2 (.strVal "a") rfl

/-- C9: the structural object check issues Required exactly on
null/undefined and ObjectType exactly on non-nullish values whose runtime
typeof is not "object", and passes every other value through unchanged;
consequently an Object schema with no declared fields accepts an array
input in every flag combination. -/
theorem object_structural_check (m rm : Option String) :
    (∀ v, isNullish v = true →
        parseObject m rm v = .error (.required (rm.getD (m.getD
          ("Expected object but received " ++ displayValue v))) none)) ∧
    (∀ v, isNullish v = false → jsTypeof v ≠ "object" →
        parseObject m rm v = .error (.objectType (m.getD
          ("Expected object but received " ++ jsTypeof v)) none)) ∧
    (∀ v, isNullish v = false → jsTypeof v = "object" →
        parseObject m rm v = .ok v) ∧
    (∀ (xs : List JSValue) (imm strict pathed : Bool),
        (safeParse (.objectS [] m imm rm [] [] strict pathed)
          (.arrVal xs)).isOk = true) := by
  refine ⟨fun v hv => ?_, fun v hv ht => ?_, fun v hv ht => ?_,
    fun xs imm strict pathed => ?_⟩
  · cases v <;> simp_all [parseObject, isNullish]
  · cases v <;> simp_all [parseObject, isNullish, jsTypeof]
  · cases v <;> simp_all [parseObject, isNullish, jsTypeof]
  · cases imm <;> cases strict <;>
      simp [safeParse, objectSafeParseRaw, runRefines, runChecks,
        parseObject, isNullish, jsTypeof, parseFieldsRetained,
        parseFieldsRetainedStrict, parseFieldsImmediate,
        parseFieldsImmediateStrict, PawResult.isOk]

/-- Witness for `object_structural_check`: null gives Required, a boolean
gives ObjectType, an array passes the structural check, and the empty
object schema accepts an array input. -/
theorem object_structural_check_witness :
    parseObject none none .null =
      .error (.required "Expected object but received null" none) ∧
    parseObject none none (.boolVal true) =
      .error (.objectType "Expected object but received boolean" none) ∧
    parseObject none none (.arrVal []) = .ok (.arrVal []) ∧
    (safeParse (.objectS [] none false none [] [] false false)
      (.arrVal [.numVal 1])).isOk = true :=
  ⟨(object_structural_check none none).1 .null rfl,
   (object_structural_check none none).2.1 (.boolVal true) rfl
     (by simp [jsTypeof]),
   (object_structural_check none none).2.2.1 (.arrVal []) rfl rfl,
   (object_structural_check none none).2.2.2 [.numVal 1] false false false⟩

/-- C2 (settled against the spec-modelled bigint variant): safeParse of a
BigInt schema fails with Required on null/undefined, fails with the
bigint type issue when the runtime type is not bigint, and on a bigint
value applies the min constraint and then the max constraint, each only
if configured, the first violated constraint short-circuiting (a min
violation wins even when max is also violated), succeeding when neither
configured constraint is violated. -/
theorem bigint_variant_contract (m rm : Option String)
    (mi ma : Option BigCfg) :
    (∀ v, isNullish v = true →
        safeParse (.bigintS m rm mi ma [] []) v =
          .error (.required (rm.getD (m.getD
            ("Expected bigint but received " ++ displayValue v))) none)) ∧
    (∀ v, isNullish v = false → jsTypeof v ≠ "bigint" →
        safeParse (.bigintS m rm mi ma [] []) v =
          .error (.bigintI (m.getD
            ("Expected bigint but received " ++ jsTypeof v)) none)) ∧
    (∀ (n : ℤ) mc, mi = some mc → n < mc.value →
        safeParse (.bigintS m rm mi ma [] []) (.bigintVal n) =
          .error (.bigintI (mc.message.getD
            ("Expected bigint to be less than or equal to " ++
              toString mc.value)) none)) ∧
    (∀ (n : ℤ) xc, (∀ mc, mi = some mc → mc.value ≤ n) → ma = some xc →
        xc.value < n →
        safeParse (.bigintS m rm mi ma [] []) (.bigintVal n) =
          .error (.bigintI (xc.message.getD
            ("Expected bigint to be bigger than or equal to " ++
              toString xc.value)) none)) ∧
    (∀ (n : ℤ), (∀ mc, mi = some mc → mc.value ≤ n) →
        (∀ xc, ma = some xc → n ≤ xc.value) →
        safeParse (.bigintS m rm mi ma [] []) (.bigintVal n) =
          .ok (.bigintVal n)) := by
  refine ⟨fun v hv => ?_, fun v hv ht => ?_, fun n mc hmc hlt => ?_,
    fun n xc hmin hxc hgt => ?_, fun n hmin hmax => ?_⟩
  · cases v <;> simp_all [safeParse, bigintSafeParse, runRefines, isNullish]
  · cases v <;>
      simp_all [safeParse, bigintSafeParse, runRefines, isNullish, jsTypeof]
  · subst hmc
    simp [safeParse, bigintSafeParse, runRefines, isNullish, hlt]
  · subst hxc
    cases mi with
    | none =>
        simp [safeParse, bigintSafeParse, bigintAfterMin, runRefines,
          isNullish, hgt]
    | some mc =>
        have hge : ¬ n < mc.value := not_lt.mpr (hmin mc rfl)
        simp [safeParse, bigintSafeParse, bigintAfterMin, runRefines,
          isNullish, hge, hgt]
  · cases mi with
    | none =>
        cases ma with
        | none =>
            simp [safeParse, bigintSafeParse, bigintAfterMin,
              bigintAfterMax, runRefines, runChecks, isNullish]
        | some xc =>
            have hle : ¬ xc.value < n := not_lt.mpr (hmax xc rfl)
            simp [safeParse, bigintSafeParse, bigintAfterMin,
              bigintAfterMax, runRefines, runChecks, isNullish, hle]
    | some mc =>
        have hge : ¬ n < mc.value := not_lt.mpr (hmin mc rfl)
        cases ma with
        | none =>
            simp [safeParse, bigintSafeParse, bigintAfterMin,
              bigintAfterMax, runRefines, runChecks, isNullish, hge]
        | some xc =>
            have hle : ¬ xc.value < n := not_lt.mpr (hmax xc rfl)
            simp [safeParse, bigintSafeParse, bigintAfterMin,
              bigintAfterMax, runRefines, runChecks, isNullish, hge, hle]

/-- Witness for `bigint_variant_contract` on the schema with required
message "req", min 0 and max 10: null is Required, a string is the bigint
type issue, -1 violates min (even though max is also configured), 11
violates max, and 5 passes. -/
theorem bigint_variant_contract_witness :
    safeParse (.bigintS none (some "req") (some ⟨0, none⟩)
        (some ⟨10, none⟩) [] []) .null = .error (.required "req" none) ∧
    safeParse (.bigintS none (some "req") (some ⟨0, none⟩)
        (some ⟨10, none⟩) [] []) (.strVal "x") =
      .error (.bigintI "Expected bigint but received string" none) ∧
    safeParse (.bigintS none (some "req") (some ⟨0, none⟩)
        (some ⟨10, none⟩) [] []) (.bigintVal (-1)) =
      .error (.bigintI "Expected bigint to be less than or equal to 0"
        none) ∧
    safeParse (.bigintS none (some "req") (some ⟨0, none⟩)
        (some ⟨10, none⟩) [] []) (.bigintVal 11) =
      .error (.bigintI "Expected bigint to be bigger than or equal to 10"
        none) ∧
    safeParse (.bigintS none (some "req") (some ⟨0, none⟩)
        (some ⟨10, none⟩) [] []) (.bigintVal 5) = .ok (.bigintVal 5) :=
  ⟨(bigint_variant_contract none (some "req") (some ⟨0, none⟩)
      (some ⟨10, none⟩)).1 .null rfl,
   (bigint_variant_contract none (some "req") (some ⟨0, none⟩)
      (some ⟨10, none⟩)).2.1 (.strVal "x") rfl (by simp [jsTypeof]),
   (bigint_variant_contract none (some "req") (some ⟨0, none⟩)
      (some ⟨10, none⟩)).2.2.1 (-1) ⟨0, none⟩ rfl (by decide),
   (bigint_variant_contract none (some "req") (some ⟨0, none⟩)
      (some ⟨10, none⟩)).2.2.2.1 11 ⟨10, none⟩
      (by intro mc h; cases h; decide) rfl (by decide),
   (bigint_variant_contract none (some "req") (some ⟨0, none⟩)
      (some ⟨10, none⟩)).2.2.2.2 5
      (by intro mc h; cases h; decide) (by intro xc h; cases h; decide)⟩

theorem parseFieldsRetained_of_allOk (fields : List (String × Schema))
    (v : JSValue)
    (h : ∀ fs ∈ fields, (safeParse fs.2 (getProp v fs.1)).isOk = true) :
    parseFieldsRetained fields v = [] := by
  induction fields with
  | nil => simp [parseFieldsRetained]
  | cons fs rest ih =>
    obtain ⟨k, s⟩ := fs
    have h1 := h (k, s) (by simp)
    cases hs : safeParse s (getProp v k) with
    | ok value => simp [parseFieldsRetained, hs, ih fun g hg => h g (by simp [hg])]
    | error e => rw [hs] at h1; simp [PawResult.isOk] at h1

theorem parseFieldsRetainedStrict_of_allOk (fields : List (String × Schema))
    (v : JSValue)
    (h : ∀ fs ∈ fields, (safeParse fs.2 (getProp v fs.1)).isOk = true) :
    parseFieldsRetainedStrict fields v =
      ([], fields.map fun fs =>
        (fs.1, okValue (safeParse fs.2 (getProp v fs.1)))) := by
  induction fields with
  | nil => simp [parseFieldsRetainedStrict]
  | cons fs rest ih =>
    obtain ⟨k, s⟩ := fs
    have h1 := h (k, s) (by simp)
    cases hs : safeParse s (getProp v k) with
    | ok value =>
        simp [parseFieldsRetainedStrict, hs,
          ih fun g hg => h g (by simp [hg]), okValue]
    | error e => rw [hs] at h1; simp [PawResult.isOk] at h1

theorem parseFieldsImmediate_of_allOk (fields : List (String × Schema))
    (v : JSValue)
    (h : ∀ fs ∈ fields, (safeParse fs.2 (getProp v fs.1)).isOk = true) :
    parseFieldsImmediate fields v = none := by
  induction fields with
  | nil => simp [parseFieldsImmediate]
  | cons fs rest ih =>
    obtain ⟨k, s⟩ := fs
    have h1 := h (k, s) (by simp)
    cases hs : safeParse s (getProp v k) with
    | ok value => simp [parseFieldsImmediate, hs, ih fun g hg => h g (by simp [hg])]
    | error e => rw [hs] at h1; simp [PawResult.isOk] at h1

theorem parseFieldsImmediateStrict_of_allOk (fields : List (String × Schema))
    (v : JSValue)
    (h : ∀ fs ∈ fields, (safeParse fs.2 (getProp v fs.1)).isOk = true) :
    parseFieldsImmediateStrict fields v =
      .ok (fields.map fun fs =>
        (fs.1, okValue (safeParse fs.2 (getProp v fs.1)))) := by
  induction fields with
  | nil => simp [parseFieldsImmediateStrict]
  | cons fs rest ih =>
    obtain ⟨k, s⟩ := fs
    have h1 := h (k, s) (by simp)
    cases hs : safeParse s (getProp v k) with
    | ok value =>
        simp [parseFieldsImmediateStrict, hs,
          ih fun g hg => h g (by simp [hg]), okValue]
    | error e => rw [hs] at h1; simp [PawResult.isOk] at h1

/-- C4: for every Object schema whose declared fields all validate on the
given input object, the strict parser returns Ok of an object holding
exactly the declared fields in declared order, each bound to its child
schema's validated output — undeclared input fields are absent — while
the non-strict parser returns Ok of the input object itself, undeclared
fields passed through unchanged.  Holds in both traversal modes and with
or without path tagging. -/
theorem object_strict_projection (fields : List (String × Schema))
    (m rm : Option String) (imm pathed : Bool)
    (l : List (String × JSValue))
    (h : ∀ fs ∈ fields,
      (safeParse fs.2 (getProp (.objVal l) fs.1)).isOk = true) :
    safeParse (.objectS fields m imm rm [] [] true pathed) (.objVal l) =
      .ok (.objVal (fields.map fun fs =>
        (fs.1, okValue (safeParse fs.2 (getProp (.objVal l) fs.1))))) ∧
    safeParse (.objectS fields m imm rm [] [] false pathed) (.objVal l) =
      .ok (.objVal l) := by
  cases imm <;>
    constructor <;>
      simp [safeParse, objectSafeParseRaw, runRefines, runChecks,
        parseObject, isNullish, jsTypeof,
        parseFieldsRetained_of_allOk fields (.objVal l) h,
        parseFieldsRetainedStrict_of_allOk fields (.objVal l) h,
        parseFieldsImmediate_of_allOk fields (.objVal l) h,
        parseFieldsImmediateStrict_of_allOk fields (.objVal l) h]

/-- Witness for `object_strict_projection` at the spec's example:
`object({a: number()}).strict().safeParse({a: 1, b: 2})` yields Ok({a: 1})
with b absent, and the non-strict schema yields Ok({a: 1, b: 2}). -/
theorem object_strict_projection_witness :
    safeParse (.objectS [("a", number none)] none false none [] [] true
        false) (.objVal [("a", .numVal 1), ("b", .numVal 2)]) =
      .ok (.objVal [("a", .numVal 1)]) ∧
    safeParse (object [("a", number none)] none)
        (.objVal [("a", .numVal 1), ("b", .numVal 2)]) =
      .ok (.objVal [("a", .numVal 1), ("b", .numVal 2)]) := by
  have h := object_strict_projection [("a", number none)] none none false
    false [("a", .numVal 1), ("b", .numVal 2)]
    (by
      intro fs hfs
      simp only [List.mem_singleton] at hfs
      subst hfs
      simp [safeParse, number, numberSafeParse, numberAfterMin,
        numberAfterMax, runRefines, runChecks, isNullish, getProp,
        lookupField, PawResult.isOk])
  refine ⟨?_, ?_⟩
  · have h1 := h.1
    simpa [safeParse, number, numberSafeParse, numberAfterMin,
      numberAfterMax, runRefines, runChecks, isNullish, getProp,
      lookupField, okValue] using h1
  · simpa [object] using h.2

/-- Specification-side characterization for C5: the `{idx, issue}` entry
list holding exactly one entry per invalid element, at that element's
index, in index order. -/
def specInvalidEntries (unit : Schema) (elems : List JSValue) :
    List (Nat × PawIssue) :=
  (List.enumFrom 0 elems).filterMap fun p =>
    match safeParse unit p.2 with
    | .error err => some (p.1, err)
    | .ok _ => none

/-- Specification-side characterization for C5: the `{field, issue}` entry
list holding exactly one entry per invalid declared field, in declared
order. -/
def specInvalidFields (fields : List (String × Schema)) (v : JSValue) :
    List (String × PawIssue) :=
  fields.filterMap fun fs =>
    match safeParse fs.2 (getProp v fs.1) with
    | .error e => some (fs.1, e)
    | .ok _ => none

theorem parseElemsRetained_eq (unit : Schema) (elems : List JSValue)
    (i : Nat) :
    parseElemsRetained unit elems i =
      (List.enumFrom i elems).filterMap fun p =>
        match safeParse unit p.2 with
        | .error err => some (p.1, err)
        | .ok _ => none := by
  induction elems generalizing i with
  | nil => simp [parseElemsRetained]
  | cons e rest ih =>
    cases hs : safeParse unit e with
    | ok value => simp [parseElemsRetained, List.enumFrom, hs, ih]
    | error err => simp [parseElemsRetained, List.enumFrom, hs, ih]

theorem parseFieldsRetained_eq (fields : List (String × Schema))
    (v : JSValue) :
    parseFieldsRetained fields v = specInvalidFields fields v := by
  induction fields with
  | nil => simp [parseFieldsRetained, specInvalidFields]
  | cons fs rest ih =>
    obtain ⟨k, s⟩ := fs
    cases hs : safeParse s (getProp v k) with
    | ok value =>
        simpa [parseFieldsRetained, specInvalidFields, hs] using ih
    | error e =>
        simpa [parseFieldsRetained, specInvalidFields, hs] using ih

theorem parseFieldsRetainedStrict_fst (fields : List (String × Schema))
    (v : JSValue) :
    (parseFieldsRetainedStrict fields v).1 = specInvalidFields fields v := by
  induction fields with
  | nil => simp [parseFieldsRetainedStrict, specInvalidFields]
  | cons fs rest ih =>
    obtain ⟨k, s⟩ := fs
    cases hs : safeParse s (getProp v k) with
    | ok value =>
        simp [parseFieldsRetainedStrict, specInvalidFields, hs] at ih ⊢
        exact ih
    | error e =>
        simp [parseFieldsRetainedStrict, specInvalidFields, hs] at ih ⊢
        exact ih

theorem specInvalidEntries_length (unit : Schema) (elems : List JSValue) :
    (specInvalidEntries unit elems).length =
      (elems.filter fun e => !(safeParse unit e).isOk).length := by
  suffices h : ∀ i, ((List.enumFrom i elems).filterMap fun p =>
      match safeParse unit p.2 with
      | .error err => some (p.1, err)
      | .ok _ => none).length =
        (elems.filter fun e => !(safeParse unit e).isOk).length by
    exact h 0
  induction elems with
  | nil => simp
  | cons e rest ih =>
    intro i
    cases hs : safeParse unit e with
    | ok value => simp [List.enumFrom, hs, List.filter, PawResult.isOk, ih]
    | error err => simp [List.enumFrom, hs, List.filter, PawResult.isOk, ih]

theorem specInvalidFields_length (fields : List (String × Schema))
    (v : JSValue) :
    (specInvalidFields fields v).length =
      (fields.filter fun fs =>
        !(safeParse fs.2 (getProp v fs.1)).isOk).length := by
  induction fields with
  | nil => simp [specInvalidFields]
  | cons fs rest ih =>
    obtain ⟨k, s⟩ := fs
    cases hs : safeParse s (getProp v k) with
    | ok value =>
        simp [specInvalidFields, hs, List.filter, PawResult.isOk] at ih ⊢
        exact ih
    | error e =>
        simp [specInvalidFields, hs, List.filter, PawResult.isOk] at ih ⊢
        exact ih

theorem mapObjIssues_fst (issues : List (String × PawIssue))
    (path : List PathKey) :
    (mapObjIssues issues path).map Prod.fst = issues.map Prod.fst := by
  induction issues with
  | nil => simp [mapObjIssues]
  | cons x rest ih =>
    obtain ⟨f, iss⟩ := x
    simp [mapObjIssues, ih]

theorem objectSafeParseRaw_retained_err (fields : List (String × Schema))
    (m rm : Option String) (strict : Bool) (cks : List CheckFn)
    (l : List (String × JSValue))
    (hne : specInvalidFields fields (.objVal l) ≠ []) :
    objectSafeParseRaw fields m false rm [] cks strict (.objVal l) =
      .error (.objectSchema (m.getD "Object failed schema validation")
        (specInvalidFields fields (.objVal l)) none) := by
  cases hinv : specInvalidFields fields (.objVal l) with
  | nil => exact absurd hinv hne
  | cons a rest =>
    cases strict with
    | false =>
        have hf : parseFieldsRetained fields (.objVal l) = a :: rest := by
          rw [parseFieldsRetained_eq, hinv]
        simp [objectSafeParseRaw, runRefines, parseObject, isNullish,
          jsTypeof, hf]
    | true =>
        rcases hps : parseFieldsRetainedStrict fields (.objVal l) with
          ⟨is, out⟩
        have hf : is = a :: rest := by
          have := parseFieldsRetainedStrict_fst fields (.objVal l)
          rw [hps, hinv] at this
          exact this
        subst hf
        simp [objectSafeParseRaw, runRefines, parseObject, isNullish,
          jsTypeof, hps]

/-- C5: for an Array or Object schema in retained mode on an input that
passes the structural check but has at least one invalid element/field,
safeParse returns a single aggregate ArraySchema/ObjectSchema issue whose
child list is exactly the list of `{index, issue}` / `{field, issue}`
entries of the invalid elements/fields, in index/declared order, its
length equal to the number of invalid elements/fields; for a path-tagged
object schema the same holds with the child issues path-annotated (same
fields, same order, same count). -/
theorem retained_completeness :
    (∀ (unit : Schema) (m rm : Option String) (ma mi : Option SizeCfg)
        (cks : List CheckFn) (elems : List JSValue),
      parseArray m rm ma mi (.arrVal elems) = .ok elems →
      specInvalidEntries unit elems ≠ [] →
      safeParse (.arrayS unit m false rm ma mi [] cks) (.arrVal elems) =
        .error (.arraySchema (m.getD "Array failed schema validation")
          (specInvalidEntries unit elems) none) ∧
      (specInvalidEntries unit elems).length =
        (elems.filter fun e => !(safeParse unit e).isOk).length) ∧
    (∀ (fields : List (String × Schema)) (m rm : Option String)
        (strict : Bool) (cks : List CheckFn)
        (l : List (String × JSValue)),
      specInvalidFields fields (.objVal l) ≠ [] →
      safeParse (.objectS fields m false rm [] cks strict false)
          (.objVal l) =
        .error (.objectSchema (m.getD "Object failed schema validation")
          (specInvalidFields fields (.objVal l)) none) ∧
      (specInvalidFields fields (.objVal l)).length =
        (fields.filter fun fs =>
          !(safeParse fs.2 (getProp (.objVal l) fs.1)).isOk).length) ∧
    (∀ (fields : List (String × Schema)) (m rm : Option String)
        (strict : Bool) (cks : List CheckFn)
        (l : List (String × JSValue)),
      specInvalidFields fields (.objVal l) ≠ [] →
      ∃ L, safeParse (.objectS fields m false rm [] cks strict true)
          (.objVal l) =
        .error (.objectSchema (m.getD "Object failed schema validation")
          L (some [])) ∧
        L.map Prod.fst =
          (specInvalidFields fields (.objVal l)).map Prod.fst ∧
        L.length = (specInvalidFields fields (.objVal l)).length) := by
  refine ⟨fun unit m rm ma mi cks elems hstruct hne => ?_,
    fun fields m rm strict cks l hne => ?_,
    fun fields m rm strict cks l hne => ?_⟩
  · refine ⟨?_, specInvalidEntries_length unit elems⟩
    have helems : parseElemsRetained unit elems 0 =
        specInvalidEntries unit elems :=
      parseElemsRetained_eq unit elems 0
    cases hinv : specInvalidEntries unit elems with
    | nil => exact absurd hinv hne
    | cons a rest =>
        rw [hinv] at helems
        simp [safeParse, runRefines, hstruct, helems, hinv]
  · refine ⟨?_, specInvalidFields_length fields (.objVal l)⟩
    have hraw := objectSafeParseRaw_retained_err fields m rm strict cks l
      hne
    simp [safeParse, hraw]
  · have hraw := objectSafeParseRaw_retained_err fields m rm strict cks l
      hne
    refine ⟨mapObjIssues (specInvalidFields fields (.objVal l)) [],
      ?_, mapObjIssues_fst _ _, ?_⟩
    · simp [safeParse, hraw, makeIssueWithPath]
    · have := congrArg List.length
        (mapObjIssues_fst (specInvalidFields fields (.objVal l)) [])
      simpa using this

/-- Witness for `retained_completeness`: a retained array of numbers with
invalid elements at indices 0 and 2 reports exactly those two entries, and
a retained object with two missing required fields reports exactly the two
field entries in declared order. -/
theorem retained_completeness_witness :
    safeParse (.arrayS (number none) none false none none none [] [])
        (.arrVal [.strVal "x", .numVal 1, .boolVal true]) =
      .error (.arraySchema "Array failed schema validation"
        [(0, .numberI "Expected a number but received string" none),
         (2, .numberI "Expected a number but received boolean" none)]
        none) ∧
    safeParse (.objectS [("a", number none), ("b", string none)] none
        false none [] [] false false) (.objVal []) =
      .error (.objectSchema "Object failed schema validation"
        [("a", .required "Expected a number but received undefined" none),
         ("b", .required "Expected string but received undefined" none)]
        none) := by
  constructor
  · have h := (retained_completeness.1 (number none) none none none none
      [] [.strVal "x", .numVal 1, .boolVal true] rfl
      (by
        simp [specInvalidEntries, List.enumFrom, safeParse, number,
          numberSafeParse, numberAfterMin, numberAfterMax, runRefines,
          runChecks, isNullish, jsTypeof])).1
    rw [h]
    simp [specInvalidEntries, List.enumFrom, safeParse, number,
      numberSafeParse, numberAfterMin, numberAfterMax, runRefines,
      runChecks, isNullish, jsTypeof]
  · have h := (retained_completeness.2.1 [("a", number none),
      ("b", string none)] none none false [] []
      (by
        simp [specInvalidFields, safeParse, number, string,
          numberSafeParse, stringSafeParse, runRefines, isNullish,
          getProp, lookupField, displayValue])).1
    rw [h]
    simp [specInvalidFields, safeParse, number, string, numberSafeParse,
      stringSafeParse, runRefines, isNullish, getProp, lookupField,
      displayValue]

theorem parseElemsImmediate_first (unit : Schema) (pre post : List JSValue)
    (bad : JSValue) (err : PawIssue) (i : Nat)
    (hpre : ∀ e ∈ pre, (safeParse unit e).isOk = true)
    (hbad : safeParse unit bad = .error err) :
    parseElemsImmediate unit (pre ++ bad :: post) i =
      some (i + pre.length, err) := by
  induction pre generalizing i with
  | nil => simp [parseElemsImmediate, hbad]
  | cons e rest ih =>
    have h1 := hpre e (by simp)
    cases hs : safeParse unit e with
    | error e2 => rw [hs] at h1; simp [PawResult.isOk] at h1
    | ok value =>
        have hr := ih (i + 1) (fun x hx => hpre x (by simp [hx]))
        have harith : i + 1 + rest.length = i + (rest.length + 1) := by
          omega
        simp only [List.cons_append, parseElemsImmediate, hs, hr,
          List.length_cons, harith]

theorem parseFieldsImmediate_first (preF postF : List (String × Schema))
    (k : String) (s : Schema) (v : JSValue) (err : PawIssue)
    (hpre : ∀ fs ∈ preF, (safeParse fs.2 (getProp v fs.1)).isOk = true)
    (hbad : safeParse s (getProp v k) = .error err) :
    parseFieldsImmediate (preF ++ (k, s) :: postF) v = some (k, err) := by
  induction preF with
  | nil => simp [parseFieldsImmediate, hbad]
  | cons fs rest ih =>
    obtain ⟨k0, s0⟩ := fs
    have h1 := hpre (k0, s0) (by simp)
    cases hs : safeParse s0 (getProp v k0) with
    | error e2 => rw [hs] at h1; simp [PawResult.isOk] at h1
    | ok value =>
        simpa [parseFieldsImmediate, hs] using
          ih fun x hx => hpre x (by simp [hx])

theorem parseFieldsImmediateStrict_first
    (preF postF : List (String × Schema)) (k : String) (s : Schema)
    (v : JSValue) (err : PawIssue)
    (hpre : ∀ fs ∈ preF, (safeParse fs.2 (getProp v fs.1)).isOk = true)
    (hbad : safeParse s (getProp v k) = .error err) :
    parseFieldsImmediateStrict (preF ++ (k, s) :: postF) v =
      .error (k, err) := by
  induction preF with
  | nil => simp [parseFieldsImmediateStrict, hbad]
  | cons fs rest ih =>
    obtain ⟨k0, s0⟩ := fs
    have h1 := hpre (k0, s0) (by simp)
    cases hs : safeParse s0 (getProp v k0) with
    | error e2 => rw [hs] at h1; simp [PawResult.isOk] at h1
    | ok value =>
        have hr := ih fun x hx => hpre x (by simp [hx])
        simp [parseFieldsImmediateStrict, hs, hr]

/-- C6: for an Array or Object schema in immediate mode on an input that
passes the structural check, when the elements/fields before position p
all validate and the element/field at p fails, safeParse returns an
aggregate issue whose child list is exactly the single entry for that
first failure (index p for arrays, the declared field name for objects);
later elements/fields do not appear in the result. -/
theorem immediate_first_failure :
    (∀ (unit : Schema) (m rm : Option String) (ma mi : Option SizeCfg)
        (cks : List CheckFn) (pre post : List JSValue) (bad : JSValue)
        (err : PawIssue),
      parseArray m rm ma mi (.arrVal (pre ++ bad :: post)) =
        .ok (pre ++ bad :: post) →
      (∀ e ∈ pre, (safeParse unit e).isOk = true) →
      safeParse unit bad = .error err →
      safeParse (.arrayS unit m true rm ma mi [] cks)
          (.arrVal (pre ++ bad :: post)) =
        .error (.arraySchema (m.getD ("Item at " ++ toString pre.length ++
          " failed schema validation")) [(pre.length, err)] none)) ∧
    (∀ (preF postF : List (String × Schema)) (k : String) (s : Schema)
        (m rm : Option String) (strict : Bool) (cks : List CheckFn)
        (l : List (String × JSValue)) (err : PawIssue),
      (∀ fs ∈ preF,
        (safeParse fs.2 (getProp (.objVal l) fs.1)).isOk = true) →
      safeParse s (getProp (.objVal l) k) = .error err →
      safeParse (.objectS (preF ++ (k, s) :: postF) m true rm [] cks
          strict false) (.objVal l) =
        .error (.objectSchema (getFieldIssueMessage m k) [(k, err)]
          (if strict then some [.fieldKey k] else none))) := by
  constructor
  · intro unit m rm ma mi cks pre post bad err hstruct hpre hbad
    have helems := parseElemsImmediate_first unit pre post bad err 0 hpre
      hbad
    simp only [Nat.zero_add] at helems
    simp [safeParse, runRefines, hstruct, helems]
  · intro preF postF k s m rm strict cks l err hpre hbad
    cases strict with
    | false =>
        have hf := parseFieldsImmediate_first preF postF k s (.objVal l)
          err hpre hbad
        simp [safeParse, objectSafeParseRaw, runRefines, parseObject,
          isNullish, jsTypeof, hf]
    | true =>
        have hf := parseFieldsImmediateStrict_first preF postF k s
          (.objVal l) err hpre hbad
        simp [safeParse, objectSafeParseRaw, runRefines, parseObject,
          isNullish, jsTypeof, hf]

/-- Witness for `immediate_first_failure`: an immediate number-array with
invalid elements at indices 1 and 2 reports only index 1, and an
immediate object with both declared fields missing reports only the first
declared field — with the `[k]` path on the aggregate in strict mode and
no path otherwise. -/
theorem immediate_first_failure_witness :
    safeParse (.arrayS (number none) none true none none none [] [])
        (.arrVal [.numVal 1, .strVal "x", .boolVal true]) =
      .error (.arraySchema "Item at 1 failed schema validation"
        [(1, .numberI "Expected a number but received string" none)]
        none) ∧
    safeParse (.objectS [("a", number none), ("b", string none)] none
        true none [] [] false false) (.objVal []) =
      .error (.objectSchema "Field 'a' failed object schema validation"
        [("a", .required "Expected a number but received undefined" none)]
        none) ∧
    safeParse (.objectS [("a", number none), ("b", string none)] none
        true none [] [] true false) (.objVal []) =
      .error (.objectSchema "Field 'a' failed object schema validation"
        [("a", .required "Expected a number but received undefined" none)]
        (some [.fieldKey "a"])) := by
  refine ⟨?_, ?_, ?_⟩
  · have h := immediate_first_failure.1 (number none) none none none none
      [] [.numVal 1] [.boolVal true] (.strVal "x")
      (.numberI "Expected a number but received string" none) rfl
      (by
        intro e he
        simp only [List.mem_singleton] at he
        subst he
        simp [safeParse, number, numberSafeParse, numberAfterMin,
          numberAfterMax, runRefines, runChecks, isNullish,
          PawResult.isOk])
      (by
        simp [safeParse, number, numberSafeParse, runRefines, isNullish,
          jsTypeof])
    simpa using h
  · have h := immediate_first_failure.2 []
      [("b", string none)] "a" (number none) none none false [] []
      (.required "Expected a number but received undefined" none)
      (by intro fs hfs; simp at hfs)
      (by
        simp [safeParse, number, numberSafeParse, runRefines, isNullish,
          getProp, lookupField, displayValue])
    simpa [getFieldIssueMessage] using h
  · have h := immediate_first_failure.2 []
      [("b", string none)] "a" (number none) none none true [] []
      (.required "Expected a number but received undefined" none)
      (by intro fs hfs; simp at hfs)
      (by
        simp [safeParse, number, numberSafeParse, runRefines, isNullish,
          getProp, lookupField, displayValue])
    simpa [getFieldIssueMessage] using h

theorem pathsOkObj_of_each (issues : List (String × PawIssue))
    (pre : List PathKey)
    (h : ∀ x ∈ issues,
      pathsOk (makeIssueWithPath x.2 (pre ++ [.fieldKey x.1]))
        (pre ++ [.fieldKey x.1]) = true) :
    pathsOkObj (mapObjIssues issues pre) pre = true := by
  induction issues with
  | nil => simp [mapObjIssues, pathsOkObj]
  | cons x rest ih =>
    obtain ⟨f, iss⟩ := x
    simp [mapObjIssues, pathsOkObj, h (f, iss) (by simp),
      ih fun y hy => h y (by simp [hy])]

theorem pathsOkArr_of_each (issues : List (Nat × PawIssue))
    (pre : List PathKey)
    (h : ∀ x ∈ issues,
      pathsOk (makeIssueWithPath x.2 (pre ++ [.idxKey x.1]))
        (pre ++ [.idxKey x.1]) = true) :
    pathsOkArr (mapArrIssues issues pre) pre = true := by
  induction issues with
  | nil => simp [mapArrIssues, pathsOkArr]
  | cons x rest ih =>
    obtain ⟨i, iss⟩ := x
    simp [mapArrIssues, pathsOkArr, h (i, iss) (by simp),
      ih fun y hy => h y (by simp [hy])]

theorem pathsOk_make_aux (n : Nat) : ∀ (iss : PawIssue), sizeOf iss ≤ n →
    ∀ pre, pathsOk (makeIssueWithPath iss pre) pre = true := by
  induction n with
  | zero =>
      intro iss h
      exact absurd h (by cases iss <;> simp)
  | succ n ih =>
    intro iss h pre
    cases iss with
    | objectSchema m issues p =>
        have hsub : ∀ x ∈ issues, sizeOf x.2 ≤ n := by
          intro x hx
          have h1 := List.sizeOf_lt_of_mem hx
          obtain ⟨a, b⟩ := x
          simp at h1 h ⊢
          omega
        have hall := pathsOkObj_of_each issues pre fun x hx =>
          ih x.2 (hsub x hx) (pre ++ [.fieldKey x.1])
        simp [makeIssueWithPath, pathsOk, hall]
    | arraySchema m issues p =>
        have hsub : ∀ x ∈ issues, sizeOf x.2 ≤ n := by
          intro x hx
          have h1 := List.sizeOf_lt_of_mem hx
          obtain ⟨a, b⟩ := x
          simp at h1 h ⊢
          omega
        have hall := pathsOkArr_of_each issues pre fun x hx =>
          ih x.2 (hsub x hx) (pre ++ [.idxKey x.1])
        simp [makeIssueWithPath, pathsOk, hall]
    | required m p => simp [makeIssueWithPath, pathsOk]
    | stringI m p => simp [makeIssueWithPath, pathsOk]
    | numberI m p => simp [makeIssueWithPath, pathsOk]
    | bigintI m p => simp [makeIssueWithPath, pathsOk]
    | booleanI m p => simp [makeIssueWithPath, pathsOk]
    | arrayType m p => simp [makeIssueWithPath, pathsOk]
    | objectType m p => simp [makeIssueWithPath, pathsOk]
    | literalI m p => simp [makeIssueWithPath, pathsOk]
    | unionI m p => simp [makeIssueWithPath, pathsOk]
    | checkI m s p => simp [makeIssueWithPath, pathsOk]
    | refineI m s p => simp [makeIssueWithPath, pathsOk]
    | transformI m s p => simp [makeIssueWithPath, pathsOk]

theorem pathsOk_makeIssueWithPath (iss : PawIssue) (pre : List PathKey) :
    pathsOk (makeIssueWithPath iss pre) pre = true :=
  pathsOk_make_aux (sizeOf iss) iss le_rfl pre

/-- C7: whenever a path-tagged Object schema's safeParse fails, every
issue in the returned issue tree carries a `path` equal to the
concatenation of its ancestors' field names and array indices from the
root down to it (`pathsOk e []`), at arbitrary nesting depth of
Object/Array aggregate issues. -/
theorem pathed_issue_paths (fields : List (String × Schema))
    (m rm : Option String) (imm strict : Bool) (refs : List RefineFn)
    (cks : List CheckFn) (v : JSValue) (e : PawIssue)
    (h : safeParse (.objectS fields m imm rm refs cks strict true) v =
      .error e) :
    pathsOk e [] = true := by
  cases hraw : objectSafeParseRaw fields m imm rm refs cks strict v with
  | ok out => simp [safeParse, hraw] at h
  | error e2 =>
      simp [safeParse, hraw] at h
      rw [← h]
      exact pathsOk_makeIssueWithPath e2 []

/-- The spec's C7 example schema
`object({name: string(), traits: object({height: number().required("h")})}).pathed()`. -/
def pathedExample : Schema :=
  .objectS [("name", string none),
    ("traits", object [("height",
      .numberS none (some "h") ⟨false, none⟩ none none [] [])] none)]
    none false none [] [] false true

/-- The spec's C7 example input `{name: 2, traits: {}}`. -/
def pathedExampleInput : JSValue :=
  .objVal [("name", .numVal 2), ("traits", .objVal [])]

/-- The issue tree the C7 example produces: the `name` child has path
["name"], the `traits` child has path ["traits"], and the nested `height`
child has path ["traits", "height"]. -/
def pathedExampleIssue : PawIssue :=
  .objectSchema "Object failed schema validation"
    [("name", .stringI "Expected string but received number"
        (some [.fieldKey "name"])),
     ("traits", .objectSchema "Object failed schema validation"
        [("height", .required "h"
            (some [.fieldKey "traits", .fieldKey "height"]))]
        (some [.fieldKey "traits"]))]
    (some [])

/-- Witness for `pathed_issue_paths` at the spec's example, which
evaluates to exactly the claimed per-level paths. -/
theorem pathed_issue_paths_witness :
    safeParse pathedExample pathedExampleInput =
      .error pathedExampleIssue ∧
    pathsOk pathedExampleIssue [] = true := by
  have heq : safeParse pathedExample pathedExampleInput =
      .error pathedExampleIssue := by
    simp [pathedExample, pathedExampleInput, pathedExampleIssue, object,
      string, safeParse, objectSafeParseRaw, parseFieldsRetained,
      runRefines, runChecks, parseObject, isNullish, jsTypeof, getProp,
      lookupField, numberSafeParse, stringSafeParse, displayValue,
      makeIssueWithPath, mapObjIssues, mapArrIssues]
  exact ⟨heq, pathed_issue_paths _ _ _ _ _ _ _ pathedExampleInput
    pathedExampleIssue heq⟩

theorem lookupSchema_append (a b : List (String × Schema)) (k : String) :
    lookupSchema (a ++ b) k =
      match lookupSchema a k with
      | some s => some s
      | none => lookupSchema b k := by
  induction a with
  | nil => simp [lookupSchema]
  | cons kv rest ih =>
    obtain ⟨k0, s0⟩ := kv
    by_cases hk : k0 = k <;> simp [lookupSchema, hk, ih]

theorem lookupSchema_mapOverlay (a f2 : List (String × Schema))
    (k : String) :
    lookupSchema
        (a.map fun kv => (kv.1, (lookupSchema f2 kv.1).getD kv.2)) k =
      (lookupSchema a k).map fun v => (lookupSchema f2 k).getD v := by
  induction a with
  | nil => simp [lookupSchema]
  | cons kv rest ih =>
    obtain ⟨k0, s0⟩ := kv
    by_cases hk : k0 = k
    · subst hk; simp [lookupSchema]
    · simp [lookupSchema, hk, ih]

theorem lookupSchema_filter_of_not_hasKey (a b : List (String × Schema))
    (k : String) (h : hasKey a k = false) :
    lookupSchema (b.filter fun kv => ! hasKey a kv.1) k =
      lookupSchema b k := by
  induction b with
  | nil => simp [lookupSchema]
  | cons kv rest ih =>
    obtain ⟨k0, s0⟩ := kv
    by_cases hk : k0 = k
    · subst hk
      simp [List.filter, h, lookupSchema]
    · cases hh : hasKey a k0 <;>
        simp [List.filter, hh, lookupSchema, hk, ih]

/-- C8: `extend(fields)` on an Object schema returns a new Object schema
whose field map is the receiver's fields overlaid by the argument (the
argument winning on key collisions, looked up key by key), with the
receiver's immediate/strict/pathed flags, required message and registered
refine and check functions carried over.  The receiver is embedded as a
pure value and is not modified — the source method only reads `this` and
registers the copied functions on the clone. -/
theorem extend_overlay (fields f2 : List (String × Schema))
    (m m2 rm : Option String) (imm strict pathed : Bool)
    (refs : List RefineFn) (cks : List CheckFn) :
    Schema.extend (.objectS fields m imm rm refs cks strict pathed) f2
        m2 =
      .objectS (mergeFields fields f2) m2 imm rm refs cks strict
        pathed ∧
    ∀ k, lookupSchema (mergeFields fields f2) k =
      match lookupSchema f2 k with
      | some s => some s
      | none => lookupSchema fields k := by
  refine ⟨rfl, fun k => ?_⟩
  rw [mergeFields, lookupSchema_append, lookupSchema_mapOverlay]
  cases hf : lookupSchema fields k with
  | some v =>
      cases h2 : lookupSchema f2 k <;> simp [h2]
  | none =>
      have hnk : hasKey fields k = false := by
        simp [hasKey, hf]
      rw [lookupSchema_filter_of_not_hasKey fields f2 k hnk]
      cases h2 : lookupSchema f2 k <;> simp

theorem lookupField_append (a b : List (String × JSValue)) (k : String) :
    lookupField (a ++ b) k =
      match lookupField a k with
      | some v => some v
      | none => lookupField b k := by
  induction a with
  | nil => simp [lookupField]
  | cons kv rest ih =>
    obtain ⟨k0, v0⟩ := kv
    by_cases hk : k0 = k <;> simp [lookupField, hk, ih]

theorem getProp_append_undefined (l : List (String × JSValue)) (k : String)
    (j : String) :
    getProp (.objVal (l ++ [(k, .undefined)])) j = getProp (.objVal l) j := by
  simp only [getProp, lookupField_append]
  cases hl : lookupField l j with
  | some v => simp
  | none =>
      by_cases hj : k = j
      · subst hj; simp [lookupField]
      · simp [lookupField, hj]

theorem parseFieldsRetained_congr (fields : List (String × Schema))
    (v1 v2 : JSValue) (hg : ∀ j, getProp v1 j = getProp v2 j) :
    parseFieldsRetained fields v1 = parseFieldsRetained fields v2 := by
  induction fields with
  | nil => simp [parseFieldsRetained]
  | cons fs rest ih =>
    obtain ⟨k, s⟩ := fs
    simp only [parseFieldsRetained, hg, ih]

theorem parseFieldsRetainedStrict_congr (fields : List (String × Schema))
    (v1 v2 : JSValue) (hg : ∀ j, getProp v1 j = getProp v2 j) :
    parseFieldsRetainedStrict fields v1 =
      parseFieldsRetainedStrict fields v2 := by
  induction fields with
  | nil => simp [parseFieldsRetainedStrict]
  | cons fs rest ih =>
    obtain ⟨k, s⟩ := fs
    simp only [parseFieldsRetainedStrict, hg, ih]

theorem parseFieldsImmediate_congr (fields : List (String × Schema))
    (v1 v2 : JSValue) (hg : ∀ j, getProp v1 j = getProp v2 j) :
    parseFieldsImmediate fields v1 = parseFieldsImmediate fields v2 := by
  induction fields with
  | nil => simp [parseFieldsImmediate]
  | cons fs rest ih =>
    obtain ⟨k, s⟩ := fs
    simp only [parseFieldsImmediate, hg, ih]

theorem parseFieldsImmediateStrict_congr (fields : List (String × Schema))
    (v1 v2 : JSValue) (hg : ∀ j, getProp v1 j = getProp v2 j) :
    parseFieldsImmediateStrict fields v1 =
      parseFieldsImmediateStrict fields v2 := by
  induction fields with
  | nil => simp [parseFieldsImmediateStrict]
  | cons fs rest ih =>
    obtain ⟨k, s⟩ := fs
    simp only [parseFieldsImmediateStrict, hg, ih]

theorem safeParse_objectS_isOk (fields : List (String × Schema))
    (m rm : Option String) (imm strict pathed : Bool)
    (refs : List RefineFn) (cks : List CheckFn) (v : JSValue) :
    (safeParse (.objectS fields m imm rm refs cks strict pathed) v).isOk =
      (objectSafeParseRaw fields m imm rm refs cks strict v).isOk := by
  cases h : objectSafeParseRaw fields m imm rm refs cks strict v with
  | ok out => simp [safeParse, h, PawResult.isOk]
  | error e => cases pathed <;> simp [safeParse, h, PawResult.isOk]

theorem safeParse_objectS_errorOf (fields : List (String × Schema))
    (m rm : Option String) (imm strict pathed : Bool)
    (refs : List RefineFn) (cks : List CheckFn) (v : JSValue) :
    (safeParse (.objectS fields m imm rm refs cks strict pathed)
        v).errorOf =
      (objectSafeParseRaw fields m imm rm refs cks strict v).errorOf.map
        fun e => if pathed then makeIssueWithPath e [] else e := by
  cases h : objectSafeParseRaw fields m imm rm refs cks strict v with
  | ok out => simp [safeParse, h, PawResult.errorOf]
  | error e => cases pathed <;> simp [safeParse, h, PawResult.errorOf]

/-- C10: a declared field absent from the input object and the same field
explicitly set to undefined are validated identically — the field lookup
passes undefined to the child schema in both cases — so the two inputs
succeed together, produce the same issue when they fail, and in strict
mode produce fully identical results.  (In non-strict success the output
echoes the input object itself, which is the zero-copy passthrough of
C4.) -/
theorem absent_field_undefined (fields : List (String × Schema))
    (m rm : Option String) (imm strict pathed : Bool) (k : String)
    (l : List (String × JSValue)) (hk : lookupField l k = none) :
    getProp (.objVal l) k = .undefined ∧
    getProp (.objVal (l ++ [(k, .undefined)])) k = .undefined ∧
    (safeParse (.objectS fields m imm rm [] [] strict pathed)
        (.objVal (l ++ [(k, .undefined)]))).isOk =
      (safeParse (.objectS fields m imm rm [] [] strict pathed)
        (.objVal l)).isOk ∧
    (safeParse (.objectS fields m imm rm [] [] strict pathed)
        (.objVal (l ++ [(k, .undefined)]))).errorOf =
      (safeParse (.objectS fields m imm rm [] [] strict pathed)
        (.objVal l)).errorOf ∧
    (strict = true →
      safeParse (.objectS fields m imm rm [] [] strict pathed)
          (.objVal (l ++ [(k, .undefined)])) =
        safeParse (.objectS fields m imm rm [] [] strict pathed)
          (.objVal l)) := by
  have hg := getProp_append_undefined l k
  have core :
      (objectSafeParseRaw fields m imm rm [] [] strict
          (.objVal (l ++ [(k, .undefined)]))).isOk =
        (objectSafeParseRaw fields m imm rm [] [] strict
          (.objVal l)).isOk ∧
      (objectSafeParseRaw fields m imm rm [] [] strict
          (.objVal (l ++ [(k, .undefined)]))).errorOf =
        (objectSafeParseRaw fields m imm rm [] [] strict
          (.objVal l)).errorOf ∧
      (strict = true →
        objectSafeParseRaw fields m imm rm [] [] strict
            (.objVal (l ++ [(k, .undefined)])) =
          objectSafeParseRaw fields m imm rm [] [] strict (.objVal l)) := by
    cases imm with
    | false =>
        cases strict with
        | false =>
            have hcong := parseFieldsRetained_congr fields
              (.objVal (l ++ [(k, .undefined)])) (.objVal l) hg
            cases hres : parseFieldsRetained fields (.objVal l) with
            | nil =>
                rw [hres] at hcong
                simp [objectSafeParseRaw, runRefines, runChecks,
                  parseObject, isNullish, jsTypeof, hres, hcong,
                  PawResult.isOk, PawResult.errorOf]
            | cons a rest =>
                rw [hres] at hcong
                simp [objectSafeParseRaw, runRefines, parseObject,
                  isNullish, jsTypeof, hres, hcong, PawResult.isOk,
                  PawResult.errorOf]
        | true =>
            have hcong := parseFieldsRetainedStrict_congr fields
              (.objVal (l ++ [(k, .undefined)])) (.objVal l) hg
            rcases hres : parseFieldsRetainedStrict fields (.objVal l)
              with ⟨is, out⟩
            rw [hres] at hcong
            cases is with
            | nil =>
                simp [objectSafeParseRaw, runRefines, runChecks,
                  parseObject, isNullish, jsTypeof, hres, hcong,
                  PawResult.isOk, PawResult.errorOf]
            | cons a rest =>
                simp [objectSafeParseRaw, runRefines, parseObject,
                  isNullish, jsTypeof, hres, hcong, PawResult.isOk,
                  PawResult.errorOf]
    | true =>
        cases strict with
        | false =>
            have hcong := parseFieldsImmediate_congr fields
              (.objVal (l ++ [(k, .undefined)])) (.objVal l) hg
            cases hres : parseFieldsImmediate fields (.objVal l) with
            | none =>
                rw [hres] at hcong
                simp [objectSafeParseRaw, runRefines, runChecks,
                  parseObject, isNullish, jsTypeof, hres, hcong,
                  PawResult.isOk, PawResult.errorOf]
            | some a =>
                rw [hres] at hcong
                obtain ⟨k0, e0⟩ := a
                simp [objectSafeParseRaw, runRefines, parseObject,
                  isNullish, jsTypeof, hres, hcong, PawResult.isOk,
                  PawResult.errorOf]
        | true =>
            have hcong := parseFieldsImmediateStrict_congr fields
              (.objVal (l ++ [(k, .undefined)])) (.objVal l) hg
            cases hres : parseFieldsImmediateStrict fields (.objVal l) with
            | ok out =>
                rw [hres] at hcong
                simp [objectSafeParseRaw, runRefines, runChecks,
                  parseObject, isNullish, jsTypeof, hres, hcong,
                  PawResult.isOk, PawResult.errorOf]
            | error a =>
                rw [hres] at hcong
                obtain ⟨k0, e0⟩ := a
                simp [objectSafeParseRaw, runRefines, parseObject,
                  isNullish, jsTypeof, hres, hcong, PawResult.isOk,
                  PawResult.errorOf]
  obtain ⟨hok, herr, hstr⟩ := core
  refine ⟨by simp [getProp, hk], ?_, ?_, ?_, fun hs => ?_⟩
  · rw [getProp_append_undefined l k k]
    simp [getProp, hk]
  · rw [safeParse_objectS_isOk, safeParse_objectS_isOk, hok]
  · rw [safeParse_objectS_errorOf, safeParse_objectS_errorOf, herr]
  · have := hstr hs
    simp [safeParse, this]

/-- Witness for `absent_field_undefined` on a single Optional number
field: the empty object and `{a: undefined}` both parse, with identical
strict results. -/
theorem absent_field_undefined_witness :
    getProp (.objVal []) "a" = .undefined ∧
    (safeParse (.objectS [("a", Schema.optional (number none))] none
        false none [] [] true false) (.objVal [("a", .undefined)])).isOk =
      (safeParse (.objectS [("a", Schema.optional (number none))] none
        false none [] [] true false) (.objVal [])).isOk ∧
    safeParse (.objectS [("a", Schema.optional (number none))] none
        false none [] [] true false) (.objVal [("a", .undefined)]) =
      safeParse (.objectS [("a", Schema.optional (number none))] none
        false none [] [] true false) (.objVal []) :=
  have h := absent_field_undefined [("a", Schema.optional (number none))]
    none none false true false "a" [] rfl
  ⟨h.1, h.2.2.1, h.2.2.2.2 rfl⟩

end Paw
